import Mathlib

/-!
Verification of the operator-IR inference core of the Compass unified parser,
centred on the fused quantized-add operator (`QLinearAddMsOp` in
`ops/onnx_ops/contrib_ops.py`) and the torch `equal` conversion
(`convert_equal` in `front_end/torch/process.py`).

Modelling conventions:
* numpy float arithmetic is embedded as exact rational arithmetic (`ℚ`);
  all scale values appearing in the claims are exactly representable in
  float32, and the quantized integer outputs the claims talk about are
  produced by `np.around`, which rounds half to even;
* numpy integer tensors are lists of `ℤ` tagged with their dtype, and the
  `astype(np.int32)` cast of the source is made explicit as a wrap into
  the signed 32-bit window (`toInt32`);
* the node's attribute store (`self.__dict__` entry `_attr`) is an
  association list from attribute names to values, updated by prepending,
  which matches Python dict assignment under first-match lookup;
* fallible steps return `Except InferError`, mirroring the error taxonomy
  of the specification; the Python `assert` on the input arity surfaces
  as `InferError.MalformedOperator`.
-/

/-- The integer element dtypes of the IR tensor model. -/
inductive IntDtype where
  | int8
  | uint8
  | int16
  | uint16
  | int32
  | uint32
  | int64
  | uint64
deriving DecidableEq, Repr

/-- Smallest representable value of an integer dtype (`np.iinfo(dt).min`). -/
def dtMin : IntDtype → ℤ
  | .int8 => -128
  | .uint8 => 0
  | .int16 => -32768
  | .uint16 => 0
  | .int32 => -(2 ^ 31)
  | .uint32 => 0
  | .int64 => -(2 ^ 63)
  | .uint64 => 0

/-- Largest representable value of an integer dtype (`np.iinfo(dt).max`). -/
def dtMax : IntDtype → ℤ
  | .int8 => 127
  | .uint8 => 255
  | .int16 => 32767
  | .uint16 => 65535
  | .int32 => 2 ^ 31 - 1
  | .uint32 => 2 ^ 32 - 1
  | .int64 => 2 ^ 63 - 1
  | .uint64 => 2 ^ 64 - 1

theorem dtMin_le_dtMax (dt : IntDtype) : dtMin dt ≤ dtMax dt := by
  cases dt <;> decide

/-- Floor of a rational number, computed on its reduced fraction. -/
def ratFloor (q : ℚ) : ℤ := Int.fdiv q.num q.den

theorem ratFloor_eq_floor (q : ℚ) : ratFloor q = ⌊q⌋ := by
  rw [ratFloor, Rat.floor_def]
  exact Int.fdiv_eq_ediv _ (by positivity)

/-- Round half to even (banker's rounding), the rounding rule of
`np.around`: ties between two neighbouring integers go to the even one. -/
def roundHalfEven (q : ℚ) : ℤ :=
  let f := ratFloor q
  let r := q - (f : ℚ)
  if r < 1 / 2 then f
  else if 1 / 2 < r then f + 1
  else if f % 2 = 0 then f else f + 1

theorem roundHalfEven_intCast (n : ℤ) : roundHalfEven (n : ℚ) = n := by
  simp [roundHalfEven, ratFloor_eq_floor]

/-- Wrap an integer into the signed 32-bit window, the effect of
`astype(np.int32)` on an out-of-range value. -/
def toInt32 (x : ℤ) : ℤ := (x + 2 ^ 31) % 2 ^ 32 - 2 ^ 31

theorem toInt32_eq_self (x : ℤ) (h1 : -(2 ^ 31) ≤ x) (h2 : x < 2 ^ 31) :
    toInt32 x = x := by
  unfold toInt32
  rw [Int.emod_eq_of_lt (by linarith) (by linarith)]
  ring

/-- Quantization helper `dequantize` of the specification:
`float_x = (int_x - zero_point_x) * scale_x`, with the subtraction exact. -/
def dequantize (x z : ℤ) (s : ℚ) : ℚ := ((x - z : ℤ) : ℚ) * s

/-- Dequantization as the source computes it:
`(int_x.astype(np.int32) - zero_point_x) * scale_x`, with the cast and the
numpy int32 subtraction wrapping into the signed 32-bit window. -/
def dequantizeImpl (x z : ℤ) (s : ℚ) : ℚ :=
  ((toInt32 (toInt32 x - toInt32 z) : ℤ) : ℚ) * s

/-- Requantization as the source computes it, elementwise:
`np.clip(np.around(float_y / C_scale) + C_zero_point, out_min, out_max)`
followed by `astype` to the dtype of `C_zero_point`; `np.clip(v, lo, hi)`
is `np.minimum(hi, np.maximum(v, lo))`. -/
def requantize (f s : ℚ) (zp : ℤ) (dt : IntDtype) : ℤ :=
  min (dtMax dt) (max (roundHalfEven (f / s) + zp) (dtMin dt))

/-- Saturating clip as worded by the specification. -/
def clip (v lo hi : ℤ) : ℤ := min hi (max v lo)

/-- Requantization as worded by the specification:
`y = clip(round(float_y / scale_out) + zero_point_out, dtype_min, dtype_max)`
with `round` being round half to even. -/
def requantizeSpec (f s : ℚ) (zp : ℤ) (dt : IntDtype) : ℤ :=
  clip (roundHalfEven (f / s) + zp) (dtMin dt) (dtMax dt)

/-- The float sum `float_y = float_a + float_b` of `QLinearAddMsOp.infer_shape`,
with both inputs dequantized the way the source does it. -/
def qlinearFloatSum (ad bd : List ℤ) (az bz : ℤ) (sa sb : ℚ) : List ℚ :=
  List.zipWith (fun a b => dequantizeImpl a az sa + dequantizeImpl b bz sb) ad bd

/-- The output tensor data of `QLinearAddMsOp.infer_shape`: the float sum
requantized elementwise with the output scale, output zero point and the
dtype of `C_zero_point` (which is also the output dtype). -/
def qlinearAddCompute (ad bd : List ℤ) (az bz : ℤ) (sa sb sc : ℚ)
    (cz : ℤ) (cdt : IntDtype) : List ℤ :=
  (qlinearFloatSum ad bd az bz sa sb).map (fun fy => requantize fy sc cz cdt)

/-- A value held by the node's attribute store or flowing along an edge:
an integer tensor tagged with its dtype, or a float tensor. -/
inductive Value where
  | intTensor (data : List ℤ) (dt : IntDtype)
  | floatTensor (data : List ℚ)
deriving DecidableEq, Repr

/-- The node's attribute store (`self.__dict__` entry `_attr`): an
association list under first-match lookup; insertion prepends, which is
how a Python dict assignment shadows the attribute lookup. -/
abbrev Store := List (String × Value)

def lookupStore : Store → String → Option Value
  | [], _ => none
  | (k, v) :: rest, key => if k = key then some v else lookupStore rest key

/-- The `input_names` list of `QLinearAddMsOp.__getattr__`, in their
positional order among the node's input tensors. -/
def inputNames : List String :=
  ["A", "A_scale", "A_zero_point", "B", "B_scale", "B_zero_point",
   "C_scale", "C_zero_point"]

/-- The three zero-point attribute names of the default branch of
`QLinearAddMsOp.__getattr__`. -/
def zeroPointNames : List String :=
  ["A_zero_point", "B_zero_point", "C_zero_point"]

/-- The attribute names for which the source's substring test
`'scale' in item` holds among `inputNames`. -/
def scaleNames : List String := ["A_scale", "B_scale", "C_scale"]

def indexOfName : List String → String → Option Nat
  | [], _ => none
  | k :: rest, key =>
    if k = key then some 0 else (indexOfName rest key).map (· + 1)

/-- The `np.array(ret).astype(np.float32)` conversion applied to values
pulled from a scale input position. -/
def toFloat32 : Value → Value
  | .intTensor d _ => .floatTensor (d.map (fun x => (x : ℚ)))
  | .floatTensor d => .floatTensor d

/-- The `np.array(0, dtype=...)` scalar built by the zero-point default
branch; its dtype is copied from the value the branch reads it from. -/
def zeroOf : Value → Value
  | .intTensor _ dt => .intTensor [0] dt
  | .floatTensor _ => .floatTensor [0]

def valueDtype : Value → Option IntDtype
  | .intTensor _ dt => some dt
  | .floatTensor _ => none

/-- Reading an attribute from the node's input tensors: the fallback of
`QLinearAddMsOp.__getattr__` that maps `item` to its position in
`input_names` and, when that input exists, converts scale values to
float32. -/
def lookupInput (inputs : List Value) (item : String) : Option Value :=
  match indexOfName inputNames item with
  | some idx =>
    match inputs.get? idx with
    | some v => some (if item ∈ scaleNames then toFloat32 v else v)
    | none => none
  | none => none

/-- The declared-attribute lookup followed by the input-tensor fallback of
`QLinearAddMsOp.__getattr__`, caching a successful fallback in the store.
Returns the attribute value (if any) and the updated store. -/
def getattrBase (st : Store) (inputs : List Value) (item : String) :
    Option Value × Store :=
  match lookupStore st item with
  | some v => (some v, st)
  | none =>
    match lookupInput inputs item with
    | some v => (some v, (item, v) :: st)
    | none => (none, st)

/-- The zero-point default branch of `QLinearAddMsOp.__getattr__`: for the
three zero-point names, when both the declared attribute and the input
position are missing, a zero scalar of the dtype of attribute `A` is
produced and cached (attribute `A` is itself resolved through the same
declared-then-input chain; for the name `A` the zero-point branch never
applies, so that chain is exactly `getattrBase`). -/
def getattrDefault (st : Store) (inputs : List Value) (item : String) :
    Option Value × Store :=
  if item ∈ zeroPointNames then
    match (getattrBase st inputs "A").1 with
    | some a => (some (zeroOf a), (item, zeroOf a) :: (getattrBase st inputs "A").2)
    | none => (none, (getattrBase st inputs "A").2)
  else (none, st)

/-- The full `QLinearAddMsOp.__getattr__` chain: declared value, then
input-tensor fallback, then the zero-point default. -/
def getattrQ (st : Store) (inputs : List Value) (item : String) :
    Option Value × Store :=
  match (getattrBase st inputs item).1 with
  | some v => (some v, (getattrBase st inputs item).2)
  | none => getattrDefault (getattrBase st inputs item).2 inputs item

/-- Error kinds surfaced by node inference, from the specification's
error taxonomy. -/
inductive InferError where
  | MalformedOperator
  | MissingRequiredAttribute
deriving DecidableEq, Repr

/-- The attribute names `QLinearAddMsOp.infer_shape` resolves, in the
order its Python statements read them. -/
def qAttrNames : List String :=
  ["A", "A_zero_point", "A_scale", "B", "B_zero_point", "B_scale",
   "C_zero_point", "C_scale"]

/-- Resolve a list of attribute names in order, threading the store. -/
def resolveNames : List String → Store → List Value → List (Option Value) × Store
  | [], st, _ => ([], st)
  | n :: ns, st, inputs =>
    let r := getattrQ st inputs n
    let rest := resolveNames ns r.2 inputs
    (r.1 :: rest.1, rest.2)

/-- The arithmetic of `QLinearAddMsOp.infer_shape` on the resolved
attribute values, in `qAttrNames` order: scalar zero points and scales,
equal-length input tensors, output dtype taken from `C_zero_point`. -/
def computeFromResolved (vs : List (Option Value)) : Except InferError Value :=
  match vs with
  | [some (.intTensor ad _), some (.intTensor [az] _), some (.floatTensor [sa]),
     some (.intTensor bd _), some (.intTensor [bz] _), some (.floatTensor [sb]),
     some (.intTensor [cz] cdt), some (.floatTensor [sc])] =>
    if ad.length = bd.length then
      .ok (.intTensor (qlinearAddCompute ad bd az bz sa sb sc cz cdt) cdt)
    else .error .MalformedOperator
  | _ => .error .MissingRequiredAttribute

/-- `QLinearAddMsOp.infer_shape`: the arity assertion
`assert len(inputs) >= 7` reported as `MalformedOperator`, then the
attribute resolution through `__getattr__` and the quantized-add
arithmetic. Returns the output value and the updated attribute store. -/
def inferQ (st : Store) (inputs : List Value) :
    Except InferError (Value × Store) :=
  if inputs.length < 7 then .error .MalformedOperator
  else
    match computeFromResolved (resolveNames qAttrNames st inputs).1 with
    | .ok v => .ok (v, (resolveNames qAttrNames st inputs).2)
    | .error e => .error e

/-- One store extends another when it preserves every successful lookup. -/
def StoreExtends (st st2 : Store) : Prop :=
  ∀ k v, lookupStore st k = some v → lookupStore st2 k = some v

theorem storeExtends_refl (st : Store) : StoreExtends st st := fun _ _ h => h

theorem storeExtends_trans {s1 s2 s3 : Store}
    (h1 : StoreExtends s1 s2) (h2 : StoreExtends s2 s3) : StoreExtends s1 s3 :=
  fun k v h => h2 k v (h1 k v h)

theorem lookupStore_cons_self (st : Store) (k : String) (v : Value) :
    lookupStore ((k, v) :: st) k = some v := by
  simp [lookupStore]

theorem storeExtends_cons {st : Store} {k : String} (v : Value)
    (h : lookupStore st k = none) : StoreExtends st ((k, v) :: st) := by
  intro k2 v2 h2
  by_cases hk : k = k2
  · subst hk
    rw [h] at h2
    exact absurd h2 (by simp)
  · simpa [lookupStore, hk] using h2

/-- Exhaustive description of `getattrBase`: a declared hit leaves the
store alone, an input-tensor hit caches under the requested name, and a
miss leaves the store alone. -/
theorem getattrBase_cases (st : Store) (inputs : List Value) (item : String) :
    (∃ v, lookupStore st item = some v ∧ getattrBase st inputs item = (some v, st)) ∨
    (lookupStore st item = none ∧
      ∃ v, lookupInput inputs item = some v ∧
        getattrBase st inputs item = (some v, (item, v) :: st)) ∨
    (lookupStore st item = none ∧ lookupInput inputs item = none ∧
      getattrBase st inputs item = (none, st)) := by
  unfold getattrBase
  cases hl : lookupStore st item with
  | some v => exact Or.inl ⟨v, rfl, rfl⟩
  | none =>
    cases hi : lookupInput inputs item with
    | some v => exact Or.inr (Or.inl ⟨rfl, v, rfl, rfl⟩)
    | none => exact Or.inr (Or.inr ⟨rfl, rfl, rfl⟩)

theorem getattrBase_of_lookup {st : Store} {item : String} {v : Value}
    (inputs : List Value) (h : lookupStore st item = some v) :
    getattrBase st inputs item = (some v, st) := by
  unfold getattrBase
  rw [h]

theorem getattrBase_some_lookup {st : Store} {inputs : List Value} {item : String}
    {v : Value} (h : (getattrBase st inputs item).1 = some v) :
    lookupStore (getattrBase st inputs item).2 item = some v := by
  rcases getattrBase_cases st inputs item with ⟨w, hl, he⟩ | ⟨_, w, _, he⟩ | ⟨_, _, he⟩ <;>
    rw [he] at h ⊢ <;> simp at h ⊢
  · exact h ▸ hl
  · rw [← h]
    exact lookupStore_cons_self _ _ _

theorem getattrBase_extends (st : Store) (inputs : List Value) (item : String) :
    StoreExtends st (getattrBase st inputs item).2 := by
  rcases getattrBase_cases st inputs item with ⟨w, _, he⟩ | ⟨hl, w, _, he⟩ | ⟨_, _, he⟩ <;>
    rw [he]
  · exact storeExtends_refl st
  · exact storeExtends_cons w hl
  · exact storeExtends_refl st

theorem ne_A_of_mem_zeroPointNames {item : String} (h : item ∈ zeroPointNames) :
    item ≠ "A" := by
  simp [zeroPointNames] at h
  rcases h with rfl | rfl | rfl <;> decide

theorem getattrDefault_some_lookup {st : Store} {inputs : List Value}
    {item : String} {v : Value}
    (h : (getattrDefault st inputs item).1 = some v) :
    lookupStore (getattrDefault st inputs item).2 item = some v := by
  unfold getattrDefault at h ⊢
  by_cases hz : item ∈ zeroPointNames
  · rw [if_pos hz] at h ⊢
    cases hA : (getattrBase st inputs "A").1 with
    | some a =>
      simp [hA] at h ⊢
      rw [← h]
      exact lookupStore_cons_self _ _ _
    | none => simp [hA] at h
  · rw [if_neg hz] at h
    simp at h

theorem getattrDefault_extends (st : Store) (inputs : List Value) (item : String)
    (hitem : lookupStore st item = none) :
    StoreExtends st (getattrDefault st inputs item).2 := by
  unfold getattrDefault
  by_cases hz : item ∈ zeroPointNames
  · rw [if_pos hz]
    have hextA : StoreExtends st (getattrBase st inputs "A").2 :=
      getattrBase_extends st inputs "A"
    have hlA : lookupStore (getattrBase st inputs "A").2 item = none := by
      rcases getattrBase_cases st inputs "A" with ⟨w, _, he⟩ | ⟨_, w, _, he⟩ | ⟨_, _, he⟩ <;>
        rw [he]
      · exact hitem
      · rw [lookupStore, if_neg (fun hq => (ne_A_of_mem_zeroPointNames hz) hq.symm)]
        exact hitem
      · exact hitem
    cases hA : (getattrBase st inputs "A").1 with
    | some a =>
      simp only
      exact storeExtends_trans hextA (storeExtends_cons _ hlA)
    | none => exact hextA
  · rw [if_neg hz]
    exact storeExtends_refl st

theorem getattrQ_of_lookup {st : Store} {item : String} {v : Value}
    (inputs : List Value) (h : lookupStore st item = some v) :
    getattrQ st inputs item = (some v, st) := by
  unfold getattrQ
  rw [getattrBase_of_lookup inputs h]

theorem getattrQ_some_lookup {st : Store} {inputs : List Value} {item : String}
    {v : Value} (h : (getattrQ st inputs item).1 = some v) :
    lookupStore (getattrQ st inputs item).2 item = some v := by
  unfold getattrQ at h ⊢
  cases hb : (getattrBase st inputs item).1 with
  | some w =>
    simp [hb] at h ⊢
    rw [← h]
    exact getattrBase_some_lookup hb
  | none =>
    simp only [hb] at h ⊢
    exact getattrDefault_some_lookup h

theorem getattrBase_none_store {st : Store} {inputs : List Value} {item : String}
    (h : (getattrBase st inputs item).1 = none) :
    (getattrBase st inputs item).2 = st ∧ lookupStore st item = none := by
  rcases getattrBase_cases st inputs item with ⟨w, _, he⟩ | ⟨_, w, _, he⟩ | ⟨hl, _, he⟩ <;>
    rw [he] at h ⊢ <;> simp at h ⊢
  exact hl

theorem getattrQ_extends (st : Store) (inputs : List Value) (item : String) :
    StoreExtends st (getattrQ st inputs item).2 := by
  unfold getattrQ
  cases hb : (getattrBase st inputs item).1 with
  | some w =>
    simp only
    exact getattrBase_extends st inputs item
  | none =>
    simp only
    obtain ⟨hst, hlk⟩ := getattrBase_none_store hb
    rw [hst]
    exact getattrDefault_extends st inputs item hlk

theorem getattrQ_stable {st st3 : Store} {inputs : List Value} {item : String}
    {v : Value} (h : (getattrQ st inputs item).1 = some v)
    (hext : StoreExtends (getattrQ st inputs item).2 st3) :
    getattrQ st3 inputs item = (some v, st3) :=
  getattrQ_of_lookup inputs (hext _ _ (getattrQ_some_lookup h))

theorem resolveNames_cons (n : String) (ns : List String) (st : Store)
    (inputs : List Value) :
    resolveNames (n :: ns) st inputs =
      ((getattrQ st inputs n).1 ::
        (resolveNames ns (getattrQ st inputs n).2 inputs).1,
       (resolveNames ns (getattrQ st inputs n).2 inputs).2) := rfl

theorem resolveNames_extends :
    ∀ (ns : List String) (st : Store) (inputs : List Value),
      StoreExtends st (resolveNames ns st inputs).2
  | [], st, _ => storeExtends_refl st
  | n :: ns, st, inputs => by
    rw [resolveNames_cons]
    exact storeExtends_trans (getattrQ_extends st inputs n)
      (resolveNames_extends ns (getattrQ st inputs n).2 inputs)

/-- Re-resolving the same names from the store produced by a first
resolution run reproduces the same values and the same store, provided
the first run resolved every name: every successful `__getattr__` leaves
its value behind in the attribute cache, so the second run is served
entirely from the cache. -/
theorem resolveNames_stable :
    ∀ (ns : List String) (st : Store) (inputs : List Value),
      (∀ x ∈ (resolveNames ns st inputs).1, x ≠ none) →
      resolveNames ns (resolveNames ns st inputs).2 inputs =
        resolveNames ns st inputs
  | [], _, _, _ => rfl
  | n :: ns, st, inputs, hall => by
    rw [resolveNames_cons] at hall ⊢
    have hhead : (getattrQ st inputs n).1 ≠ none := hall _ (by simp)
    obtain ⟨v, hv⟩ : ∃ v, (getattrQ st inputs n).1 = some v := by
      cases hx : (getattrQ st inputs n).1 with
      | some w => exact ⟨w, rfl⟩
      | none => exact absurd hx hhead
    have htail : ∀ x ∈ (resolveNames ns (getattrQ st inputs n).2 inputs).1,
        x ≠ none := fun x hx => hall _ (by simp [hx])
    have hstep : getattrQ (resolveNames ns (getattrQ st inputs n).2 inputs).2
        inputs n =
        (some v, (resolveNames ns (getattrQ st inputs n).2 inputs).2) :=
      getattrQ_stable hv (resolveNames_extends ns _ inputs)
    rw [resolveNames_cons, hstep]
    simp only
    rw [resolveNames_stable ns (getattrQ st inputs n).2 inputs htail]
    rw [hv]

theorem computeFromResolved_ok_isSome {vs : List (Option Value)} {v : Value}
    (h : computeFromResolved vs = .ok v) : ∀ x ∈ vs, x ≠ none := by
  unfold computeFromResolved at h
  split at h
  · intro x hx
    simp at hx
    rcases hx with h1 | h1 | h1 | h1 | h1 | h1 | h1 | h1 <;> subst h1 <;> simp
  · simp at h

theorem inferQ_ok_elim {st : Store} {inputs : List Value} {out : Value}
    {st2 : Store} (h : inferQ st inputs = .ok (out, st2)) :
    ¬ inputs.length < 7 ∧
      computeFromResolved (resolveNames qAttrNames st inputs).1 = .ok out ∧
      (resolveNames qAttrNames st inputs).2 = st2 := by
  unfold inferQ at h
  by_cases hlen : inputs.length < 7
  · rw [if_pos hlen] at h
    exact absurd h (by simp)
  · rw [if_neg hlen] at h
    cases hc : computeFromResolved (resolveNames qAttrNames st inputs).1 with
    | ok w =>
      rw [hc] at h
      simp at h
      obtain ⟨h1, h2⟩ := h
      subst h1
      exact ⟨hlen, rfl, h2⟩
    | error e =>
      rw [hc] at h
      simp at h

/-- C9: running inference a second time on a node whose inputs are the
same and whose attribute store is the one left behind by the first run
(including the attributes the first run cached) yields an output that is
bit-identical to the first run's output, and leaves the store unchanged. -/
theorem inferQ_idempotent {st st2 : Store} {inputs : List Value} {out : Value}
    (h : inferQ st inputs = .ok (out, st2)) :
    inferQ st2 inputs = .ok (out, st2) := by
  obtain ⟨hlen, hc, hst⟩ := inferQ_ok_elim h
  have hall : ∀ x ∈ (resolveNames qAttrNames st inputs).1, x ≠ none :=
    computeFromResolved_ok_isSome hc
  have hstable := resolveNames_stable qAttrNames st inputs hall
  rw [hst] at hstable
  unfold inferQ
  rw [if_neg hlen, hstable, hc, hst]

/-- C1: on the resolved float sum and the resolved output scale, output
zero point and output integer dtype (the dtype of `C_zero_point`, which
is also the element type the result is cast to), the requantized output
of the quantized-add inference equals, elementwise, the specification
formula `clip(round(float_y / scale_out) + zero_point_out, dtype_min,
dtype_max)` with `round` rounding half to even and `clip` saturating to
the output element type's representable range. -/
theorem qlinearAdd_matches_requantizeSpec (ad bd : List ℤ) (az bz : ℤ)
    (sa sb sc : ℚ) (cz : ℤ) (cdt : IntDtype) :
    qlinearAddCompute ad bd az bz sa sb sc cz cdt =
      (qlinearFloatSum ad bd az bz sa sb).map
        (fun fy => requantizeSpec fy sc cz cdt) := by
  simp [qlinearAddCompute, requantize, requantizeSpec, clip]

/-- The inputs of the specification's quantized-add scenario:
A = [10, 20] (uint8, scale 1/2, zero point 0), B = [5, 5] (uint8,
scale 1/2, zero point 0), output scale 1, output zero point 0 (uint8),
in the positional input order of the operator. -/
def c2Inputs : List Value :=
  [Value.intTensor [10, 20] .uint8, Value.floatTensor [1 / 2],
   Value.intTensor [0] .uint8, Value.intTensor [5, 5] .uint8,
   Value.floatTensor [1 / 2], Value.intTensor [0] .uint8,
   Value.floatTensor [1], Value.intTensor [0] .uint8]

/-- The attribute store left behind by inferring the scenario node: every
attribute resolved from its input position, cached most recent first. -/
def c2CacheStore : Store :=
  [("C_scale", Value.floatTensor [1]),
   ("C_zero_point", Value.intTensor [0] .uint8),
   ("B_scale", Value.floatTensor [1 / 2]),
   ("B_zero_point", Value.intTensor [0] .uint8),
   ("B", Value.intTensor [5, 5] .uint8),
   ("A_scale", Value.floatTensor [1 / 2]),
   ("A_zero_point", Value.intTensor [0] .uint8),
   ("A", Value.intTensor [10, 20] .uint8)]

/-- C2: the fused quantized-add scenario node dequantizes to [5, 10] and
[5/2, 5/2], sums to [15/2, 25/2], and requantizes with ties to even to
the uint8 tensor [8, 12]. -/
theorem qlinearAdd_scenario_uint8 :
    inferQ [] c2Inputs =
      Except.ok (Value.intTensor [8, 12] IntDtype.uint8, c2CacheStore) := by
  with_unfolding_all rfl

/-- C9 witness: a concrete successful first run, and the second run from
the cached store reproducing it. -/
theorem inferQ_idempotent_witness :
    inferQ [] c2Inputs =
      Except.ok (Value.intTensor [8, 12] IntDtype.uint8, c2CacheStore) ∧
    inferQ c2CacheStore c2Inputs =
      Except.ok (Value.intTensor [8, 12] IntDtype.uint8, c2CacheStore) :=
  ⟨by with_unfolding_all rfl,
   @inferQ_idempotent [] c2CacheStore c2Inputs
     (Value.intTensor [8, 12] IntDtype.uint8) (by with_unfolding_all rfl)⟩

/-- C3: for every attribute name that can come either from a declared
constant or from an input-tensor position, a declared value in the
node's attribute store wins: the lookup returns it, leaves the store
unchanged, and the result does not depend on the input tensors at all —
the input position is never consulted. -/
theorem getattr_declared_wins (st : Store) (inputs : List Value)
    (item : String) (v : Value) (_hname : item ∈ inputNames)
    (hdecl : lookupStore st item = some v) :
    getattrQ st inputs item = (some v, st) :=
  getattrQ_of_lookup inputs hdecl

/-- C3 witness: `A_scale` declared as the float scalar 3 wins over the
input tensor at its position (the float scalar 9). -/
theorem getattr_declared_wins_witness :
    "A_scale" ∈ inputNames ∧
    lookupStore [("A_scale", Value.floatTensor [3])] "A_scale" =
      some (Value.floatTensor [3]) ∧
    getattrQ [("A_scale", Value.floatTensor [3])]
        [Value.intTensor [1] IntDtype.uint8, Value.floatTensor [9]] "A_scale" =
      (some (Value.floatTensor [3]), [("A_scale", Value.floatTensor [3])]) :=
  ⟨by decide, by decide,
   getattr_declared_wins _ _ _ _ (by decide) (by decide)⟩

/-- Inputs for the zero-point defaulting scenarios: five inputs only, so
`B_zero_point` (position 5) is absent; `A` has dtype uint8 while `B` has
dtype int8. -/
def c4Inputs : List Value :=
  [Value.intTensor [10] .uint8, Value.floatTensor [1],
   Value.intTensor [0] .uint8, Value.intTensor [5] .int8,
   Value.floatTensor [1]]

/-- C4 counterexample: with no declared attributes and `B_zero_point`
missing from the inputs, the lookup yields a zero of dtype uint8 — the
dtype of `A` — although the companion tensor `B` has element type int8,
so the returned value is not the zero of the companion tensor's element
type. -/
theorem zeroPoint_default_counterexample :
    (getattrQ [] c4Inputs "B_zero_point").1 =
      some (Value.intTensor [0] IntDtype.uint8) ∧
    valueDtype (Value.intTensor [5] IntDtype.int8) = some IntDtype.int8 ∧
    Value.intTensor [0] IntDtype.uint8 ≠
      zeroOf (Value.intTensor [5] IntDtype.int8) := by
  refine ⟨by with_unfolding_all rfl, rfl, ?_⟩
  decide

/-- C4 amended: when a zero-point attribute is absent from both the
declared attributes and its input-tensor position, its lookup yields a
zero scalar of the element type of attribute `A` — the operator's first
input tensor — regardless of which tensor the zero point belongs to. -/
theorem zeroPoint_default_dtype_of_A (st : Store) (inputs : List Value)
    (item : String) (a : Value) (hzp : item ∈ zeroPointNames)
    (hdecl : lookupStore st item = none)
    (hinput : lookupInput inputs item = none)
    (ha : (getattrBase st inputs "A").1 = some a) :
    (getattrQ st inputs item).1 = some (zeroOf a) := by
  unfold getattrQ
  have hbase : getattrBase st inputs item = (none, st) := by
    unfold getattrBase
    rw [hdecl, hinput]
  rw [hbase]
  simp only
  unfold getattrDefault
  rw [if_pos hzp, ha]

/-- C4 amended witness: `B_zero_point` defaults to a zero of uint8, the
dtype of `A`. -/
theorem zeroPoint_default_dtype_of_A_witness :
    "B_zero_point" ∈ zeroPointNames ∧
    (getattrQ [] c4Inputs "B_zero_point").1 =
      some (zeroOf (Value.intTensor [10] IntDtype.uint8)) :=
  ⟨by decide,
   zeroPoint_default_dtype_of_A [] c4Inputs "B_zero_point"
     (Value.intTensor [10] IntDtype.uint8) (by decide) (by decide)
     (by decide) (by decide)⟩

/-- C5: a quantized-add node presented for inference with fewer than 7
inputs reports `MalformedOperator`; `inferQ` is a total function into
`Except`, so no fault escapes the inference step. -/
theorem inferQ_short_inputs_malformed (st : Store) (inputs : List Value)
    (h : inputs.length < 7) :
    inferQ st inputs = .error .MalformedOperator := by
  unfold inferQ
  rw [if_pos h]

/-- C5 witness: five inputs (two of the quantization-parameter inputs
missing) yield `MalformedOperator`. -/
theorem inferQ_short_inputs_malformed_witness :
    c4Inputs.length < 7 ∧
    inferQ [] c4Inputs = Except.error InferError.MalformedOperator :=
  ⟨by decide, inferQ_short_inputs_malformed [] c4Inputs (by decide)⟩

/-- C6: for every float value, scale, zero point and target integer
dtype, the requantized result lies within the representable range of the
target dtype. -/
theorem requantize_saturates (f s : ℚ) (zp : ℤ) (dt : IntDtype) :
    dtMin dt ≤ requantize f s zp dt ∧ requantize f s zp dt ≤ dtMax dt :=
  ⟨le_min (dtMin_le_dtMax dt) (le_max_right _ _), min_le_left _ _⟩

/-- C7: requantizing the dequantization of an integer x with the same
scale, zero point and dtype returns x exactly, when no overflow occurs:
the scale is nonzero, x, the zero point and their difference fit the
int32 window used by the implementation, and x lies in the target
dtype's range. -/
theorem dequantize_requantize_roundtrip (x z : ℤ) (s : ℚ) (dt : IntDtype)
    (hs : s ≠ 0)
    (hx1 : -(2 ^ 31) ≤ x) (hx2 : x < 2 ^ 31)
    (hz1 : -(2 ^ 31) ≤ z) (hz2 : z < 2 ^ 31)
    (hxz1 : -(2 ^ 31) ≤ x - z) (hxz2 : x - z < 2 ^ 31)
    (hlo : dtMin dt ≤ x) (hhi : x ≤ dtMax dt) :
    requantize (dequantizeImpl x z s) s z dt = x := by
  have h1 : dequantizeImpl x z s = ((x - z : ℤ) : ℚ) * s := by
    rw [dequantizeImpl, toInt32_eq_self x hx1 hx2, toInt32_eq_self z hz1 hz2,
      toInt32_eq_self (x - z) hxz1 hxz2]
  rw [requantize, h1, mul_div_assoc, div_self hs, mul_one,
    roundHalfEven_intCast]
  have hsum : x - z + z = x := by ring
  rw [hsum, max_eq_left hlo, min_eq_right hhi]

/-- C7 witness: x = 200 of dtype uint8 with scale 1/2 and zero point 10
round-trips exactly. -/
theorem dequantize_requantize_roundtrip_witness :
    ((1 : ℚ) / 2 ≠ 0) ∧
    requantize (dequantizeImpl 200 10 (1 / 2)) (1 / 2) 10 IntDtype.uint8 =
      200 :=
  ⟨by norm_num,
   dequantize_requantize_roundtrip 200 10 (1 / 2) IntDtype.uint8
     (by norm_num) (by decide) (by decide) (by decide) (by decide)
     (by decide) (by decide) (by decide) (by decide)⟩

/-- C8: for raw values and zero points inside the signed 32-bit window
(which covers every 8- and 16-bit quantized dtype), the int32-domain
subtraction of the implementation wraps nothing, so dequantization is
exactly `(int_x - zero_point_x) * scale_x` — including when the zero
point exceeds the raw value. -/
theorem dequantize_wide_no_wrap (x z : ℤ) (s : ℚ)
    (hx1 : -(2 ^ 31) ≤ x) (hx2 : x < 2 ^ 31)
    (hz1 : -(2 ^ 31) ≤ z) (hz2 : z < 2 ^ 31)
    (hxz1 : -(2 ^ 31) ≤ x - z) (hxz2 : x - z < 2 ^ 31) :
    dequantizeImpl x z s = dequantize x z s := by
  rw [dequantizeImpl, dequantize, toInt32_eq_self x hx1 hx2,
    toInt32_eq_self z hz1 hz2, toInt32_eq_self (x - z) hxz1 hxz2]

/-- C8 witness: raw value 0 with zero point 255 (zero point exceeding the
raw value) dequantizes exactly to -255 with no wrap-around. -/
theorem dequantize_wide_no_wrap_witness :
    (0 : ℤ) < 255 ∧ dequantizeImpl 0 255 1 = dequantize 0 255 1 ∧
    dequantize 0 255 1 = -255 :=
  ⟨by decide,
   dequantize_wide_no_wrap 0 255 1 (by decide) (by decide) (by decide)
     (by decide) (by decide) (by decide),
   by with_unfolding_all decide⟩

/-- Node kinds of the ONNX mini-graph emitted by the torch `equal`
conversion: the constant-False shortcut and the
`Equal`, `Not`, `ReduceSum` (keepdims = 0) chain over the two inputs,
which may first pass through a bool `Cast`. -/
inductive OnnxExpr where
  | constFalse
  | inputX
  | inputY
  | castBool (e : OnnxExpr)
  | equalE (a b : OnnxExpr)
  | notE (e : OnnxExpr)
  | reduceSumE (e : OnnxExpr)
deriving DecidableEq, Repr

/-- `convert_to_bool` of `front_end/torch/process.py`: insert a bool
`Cast` unless the argument's scalar type is already `Bool`. -/
def convert_to_bool (e : OnnxExpr) (isBool : Bool) : OnnxExpr :=
  if isBool then e else .castBool e

/-- `convert_logical` applied with op type `Equal`: both arguments are
passed through `convert_to_bool` before the comparison. -/
def convert_logical_equal (xIsBool yIsBool : Bool) : OnnxExpr :=
  .equalE (convert_to_bool .inputX xIsBool) (convert_to_bool .inputY yIsBool)

/-- `convert_equal` of `front_end/torch/process.py`: if the two static
shapes differ (each may be `none` when unknown, from
`_get_tensor_sizes`), emit a constant False; otherwise emit
`Not(ReduceSum(Not(convert_logical(Equal))))`. -/
def convert_equal (xShape yShape : Option (List ℕ)) (xIsBool yIsBool : Bool) :
    OnnxExpr :=
  if xShape ≠ yShape then .constFalse
  else .notE (.reduceSumE (.notE (convert_logical_equal xIsBool yIsBool)))

/-- Evaluation of the emitted mini-graph on the two (flattened) input
tensors; booleans are carried as 0/1, a bool `Cast` maps nonzero to 1,
and `ReduceSum` with keepdims = 0 produces a scalar. -/
def evalOnnx (x y : List ℤ) : OnnxExpr → List ℤ
  | .constFalse => [0]
  | .inputX => x
  | .inputY => y
  | .castBool e => (evalOnnx x y e).map (fun v => if v = 0 then 0 else 1)
  | .equalE a b =>
    List.zipWith (fun u v => if u = v then 1 else 0)
      (evalOnnx x y a) (evalOnnx x y b)
  | .notE e => (evalOnnx x y e).map (fun v => if v = 0 then 1 else 0)
  | .reduceSumE e => [(evalOnnx x y e).sum]

/-- C10 (code defect): on the int tensors `[1]` and `[2]` of identical
static shape `[1]`, the emitted graph evaluates to scalar True (`[1]`)
even though the element values differ, because `convert_logical` casts
both non-bool inputs to bool before `Equal` — both elements are nonzero,
so they compare equal after the cast. This contradicts the conversion's
own docstring (torch `equal` returns True only if the tensors have the
same size and elements). -/
theorem convert_equal_bool_cast_defect :
    evalOnnx [1] [2] (convert_equal (some [1]) (some [1]) false false) =
      [1] ∧
    ([1] : List ℤ) ≠ [2] := by
  constructor
  · rfl
  · decide
